import Mathlib

/-!
Shallow embedding of the ML-pipeline orchestrator (`main.py`) and of the
model-evaluation step (`src/test_regression_model/run.py`).

Paths are modelled as lists of path components; `os.path.join a b` is
`a ++ [b]`.  The filesystem visible to `_resolve_mlflow_model_dir` is an
abstract structure giving the set of existing files and the
directory-listing function.
-/

namespace MLPipeline

/-- Abstract filesystem: the set of existing regular files (each given by its
component path) and the `os.listdir` function returning the entry names of a
directory in listing order. -/
structure FS where
  files : List (List String)
  listdir : List String → List String

/-- Model of `os.path.isfile` on the abstract filesystem. -/
def isfile (fs : FS) (p : List String) : Bool :=
  fs.files.contains p

/-- The `for name in os.listdir(root)` loop body of `_resolve_mlflow_model_dir`:
return the first child `root/name` such that `root/name/MLmodel` is a file. -/
def searchChildren (fs : FS) (root : List String) : List String → Option (List String)
  | [] => none
  | name :: rest =>
    if isfile fs (root ++ [name, "MLmodel"]) then some (root ++ [name])
    else searchChildren fs root rest

/-- Embedding of `_resolve_mlflow_model_dir` from
`src/test_regression_model/run.py`: three-branch fallback search for the
marker file `MLmodel`; `.error` models raising `FileNotFoundError`. -/
def resolve_mlflow_model_dir (fs : FS) (root : List String) :
    Except String (List String) :=
  if isfile fs (root ++ ["MLmodel"]) then Except.ok root
  else
    if isfile fs (root ++ ["random_forest_dir", "MLmodel"]) then
      Except.ok (root ++ ["random_forest_dir"])
    else
      match searchChildren fs root (fs.listdir root) with
      | some candidate => Except.ok candidate
      | none => Except.error "FileNotFoundError"

/-- Claim-side restatement of the three-branch search, following the spec
wording: first child entry of `root` (in directory-listing order) whose
subdirectory contains `MLmodel`, expressed with `List.find?`. -/
def firstChildWithMLmodel (fs : FS) (root : List String) : Option (List String) :=
  ((fs.listdir root).find? (fun name => isfile fs (root ++ [name, "MLmodel"]))).map
    (fun name => root ++ [name])

/-- Claim-side three-branch description of the resolution helper, written from
the spec sentence rather than from the loop in the code. -/
def resolveSpec (fs : FS) (root : List String) : Except String (List String) :=
  if isfile fs (root ++ ["MLmodel"]) then Except.ok root
  else
    if isfile fs (root ++ ["random_forest_dir", "MLmodel"]) then
      Except.ok (root ++ ["random_forest_dir"])
    else
      match firstChildWithMLmodel fs root with
      | some candidate => Except.ok candidate
      | none => Except.error "FileNotFoundError"

lemma searchChildren_eq_find (fs : FS) (root : List String) (names : List String) :
    searchChildren fs root names =
      (names.find? (fun name => isfile fs (root ++ [name, "MLmodel"]))).map
        (fun name => root ++ [name]) := by
  induction names with
  | nil => rfl
  | cons name rest ih =>
    by_cases h : isfile fs (root ++ [name, "MLmodel"])
    · simp [searchChildren, List.find?, h]
    · simp only [searchChildren, if_neg h, ih, List.find?]
      rw [Bool.eq_false_iff.mpr h]

example :
    resolve_mlflow_model_dir ⟨[["r", "MLmodel"]], fun _ => []⟩ ["r"] =
      Except.ok ["r"] := by rfl

example :
    resolve_mlflow_model_dir ⟨[["r", "a", "MLmodel"], ["r", "b", "MLmodel"]],
        fun _ => ["a", "b"]⟩ ["r"] =
      Except.ok ["r", "a"] := by rfl

example :
    resolve_mlflow_model_dir ⟨[], fun _ => ["a"]⟩ ["r"] =
      Except.error "FileNotFoundError" := by rfl

/-!
## Embedding of the orchestrator `main.py`

`str.split(sep)` for a one-character separator is embedded structurally on
the character list of the string (Python semantics: no collapsing of empty
fields, `"".split(",") == [""]`).
-/

/-- Structural model of one-character-separator splitting on character
lists: `splitChars sep l` never collapses empty fields and yields `[[]]` on
the empty list. -/
def splitChars (sep : Char) : List Char → List (List Char)
  | [] => [[]]
  | c :: rest =>
    if c = sep then [] :: splitChars sep rest
    else
      match splitChars sep rest with
      | [] => [[c]]
      | t :: ts => (c :: t) :: ts

/-- Embedding of Python `s.split(sep)` for a one-character separator. -/
def pySplit (s : String) (sep : Char) : List String :=
  (splitChars sep s.data).map String.mk

lemma splitChars_ne_nil (sep : Char) (l : List Char) : splitChars sep l ≠ [] := by
  induction l with
  | nil => simp [splitChars]
  | cons c rest ih =>
    by_cases h : c = sep
    · simp [splitChars, h]
    · simp only [splitChars, if_neg h]
      cases hr : splitChars sep rest with
      | nil => simp
      | cons t ts => simp

/-- Sanity check of the split model: joining the fields back with the
separator recovers the original character list (Python:
`sep.join(s.split(sep)) == s`). -/
lemma splitChars_intercalate (sep : Char) (l : List Char) :
    List.intercalate [sep] (splitChars sep l) = l := by
  induction l with
  | nil => simp [splitChars, List.intercalate]
  | cons c rest ih =>
    by_cases h : c = sep
    · subst h
      simp only [splitChars, if_pos rfl]
      cases hr : splitChars c rest with
      | nil => exact absurd hr (splitChars_ne_nil c rest)
      | cons t ts =>
        rw [hr] at ih
        simp [List.intercalate] at ih ⊢
        exact ih
    · simp only [splitChars, if_neg h]
      cases hr : splitChars sep rest with
      | nil => exact absurd hr (splitChars_ne_nil sep rest)
      | cons t ts =>
        rw [hr] at ih
        cases ts with
        | nil =>
          simp [List.intercalate, List.intersperse] at ih ⊢
          exact ih
        | cons t2 ts2 =>
          simp [List.intercalate, List.intersperse] at ih ⊢
          simp [ih]

/-- The module-level `_steps` list of `main.py`. -/
def _steps : List String :=
  ["download", "basic_cleaning", "data_check", "data_split",
   "train_random_forest", "test_regression_model"]

/-- The `main:` section of the configuration read by `go`. -/
structure MainCfg where
  project_name : String
  experiment_name : String
  steps : String
  components_repository : String

/-- The `etl:` section of the configuration. -/
structure EtlCfg where
  sample : String
  min_price : String
  max_price : String

/-- The `data_check:` section of the configuration. -/
structure DataCheckCfg where
  kl_threshold : String

/-- The `modeling:` section of the configuration; `random_forest` is the
hyperparameter dictionary serialized to `rf_config.json`. -/
structure ModelingCfg where
  test_size : String
  random_seed : String
  stratify_by : String
  val_size : String
  max_tfidf_features : String
  random_forest : List (String × String)

/-- The configuration object handed to `go` by the config library. -/
structure Config where
  main : MainCfg
  etl : EtlCfg
  data_check : DataCheckCfg
  modeling : ModelingCfg

/-- Ambient execution context of one run of `go`: the original working
directory (base of `hydra.utils.to_absolute_path`), the current working
directory (base of `os.path.abspath`), and the temporary directory created
by `tempfile.TemporaryDirectory()`. -/
structure RunEnv where
  orig_cwd : String
  cwd : String
  tmp_dir : String

/-- Model of `os.path.join` on string paths. -/
def pjoin (a b : String) : String := a ++ "/" ++ b

/-- One `mlflow.run(...)` call: project URI, entry point, optional
`version=` keyword, `parameters=` dictionary, `env_manager=`. -/
structure Invocation where
  uri : String
  entry_point : String
  version : Option String
  parameters : List (String × String)
  env_manager : String
deriving DecidableEq

/-- Observable effects of `go`, in program order: environment-variable
assignment, file write, directory-tree copy, and an `mlflow.run` call. -/
inductive Event where
  | setenv (name value : String)
  | writeFile (path content : String)
  | copytree (src dst : String)
  | run (inv : Invocation)
deriving DecidableEq

/-- Minimal JSON rendering of `json.dump(dict(... .items()), fp)` for the
string-valued hyperparameter dictionary. -/
def jsonOfDict (kvs : List (String × String)) : String :=
  "\x7b" ++ String.intercalate ", "
    (kvs.map (fun kv => "\"" ++ kv.1 ++ "\": \"" ++ kv.2 ++ "\"")) ++ "\x7d"

/-- Embedding of `active_steps = steps_par.split(",") if steps_par != "all" else _steps`. -/
def activeSteps (steps_par : String) : List String :=
  if steps_par ≠ "all" then pySplit steps_par ',' else _steps

/-- The `mlflow.run` call of the `download` branch. -/
def downloadInv (cfg : Config) : Invocation where
  uri := cfg.main.components_repository ++ "/get_data"
  entry_point := "main"
  version := some "main"
  parameters :=
    [("sample", cfg.etl.sample),
     ("artifact_name", "sample.csv"),
     ("artifact_type", "raw_data"),
     ("artifact_description", "Raw file as downloaded")]
  env_manager := "local"

/-- The `mlflow.run` call of the `basic_cleaning` branch. -/
def basicCleaningInv (env : RunEnv) (cfg : Config) : Invocation where
  uri := pjoin (pjoin env.orig_cwd "src") "basic_cleaning"
  entry_point := "main"
  version := none
  parameters :=
    [("input_artifact", "sample.csv:latest"),
     ("output_artifact", "clean_sample.csv"),
     ("output_type", "clean_sample"),
     ("output_description", "Cleaned sample (price filter, parsed dates, geo bounds)"),
     ("min_price", cfg.etl.min_price),
     ("max_price", cfg.etl.max_price)]
  env_manager := "local"

/-- The `mlflow.run` call of the `data_check` branch. -/
def dataCheckInv (env : RunEnv) (cfg : Config) : Invocation where
  uri := pjoin (pjoin env.orig_cwd "src") "data_check"
  entry_point := "main"
  version := none
  parameters :=
    [("csv", "clean_sample.csv:latest"),
     ("ref", "clean_sample.csv:reference"),
     ("kl_threshold", cfg.data_check.kl_threshold),
     ("min_price", cfg.etl.min_price),
     ("max_price", cfg.etl.max_price)]
  env_manager := "local"

/-- The `mlflow.run` call of the `data_split` branch. -/
def dataSplitInv (cfg : Config) : Invocation where
  uri := cfg.main.components_repository ++ "/train_val_test_split"
  entry_point := "main"
  version := none
  parameters :=
    [("input", "clean_sample.csv:latest"),
     ("test_size", cfg.modeling.test_size),
     ("random_seed", cfg.modeling.random_seed),
     ("stratify_by", cfg.modeling.stratify_by)]
  env_manager := "conda"

/-- The path `os.path.abspath("rf_config.json")` used by the
`train_random_forest` branch. -/
def rfConfigPath (env : RunEnv) : String := pjoin env.cwd "rf_config.json"

/-- The `mlflow.run` call of the `train_random_forest` branch. -/
def trainInv (env : RunEnv) (cfg : Config) : Invocation where
  uri := pjoin env.tmp_dir "train_random_forest"
  entry_point := "main"
  version := none
  parameters :=
    [("rf_config", rfConfigPath env),
     ("trainval_artifact", "trainval_data.csv:latest"),
     ("val_size", cfg.modeling.val_size),
     ("random_seed", cfg.modeling.random_seed),
     ("stratify_by", cfg.modeling.stratify_by),
     ("max_tfidf_features", cfg.modeling.max_tfidf_features),
     ("output_artifact", "random_forest_export")]
  env_manager := "local"

/-- The `mlflow.run` call of the `test_regression_model` branch. -/
def testInv (env : RunEnv) : Invocation where
  uri := pjoin env.tmp_dir "test_regression_model"
  entry_point := "main"
  version := none
  parameters :=
    [("model_export", "random_forest_export:prod"),
     ("test_data", "test_data.csv:latest"),
     ("target", "price")]
  env_manager := "local"

/-- The straight-line effect trace of `go(config)` in `main.py`: the two
start-up environment assignments followed by the six conditional step
branches, in the order they appear in the source. -/
def goEvents (env : RunEnv) (cfg : Config) : List Event :=
  let active := activeSteps cfg.main.steps
  [Event.setenv "WANDB_PROJECT" cfg.main.project_name,
   Event.setenv "WANDB_RUN_GROUP" cfg.main.experiment_name]
  ++ (if active.contains "download" then
        [Event.run (downloadInv cfg)]
      else [])
  ++ (if active.contains "basic_cleaning" then
        [Event.run (basicCleaningInv env cfg)]
      else [])
  ++ (if active.contains "data_check" then
        [Event.run (dataCheckInv env cfg)]
      else [])
  ++ (if active.contains "data_split" then
        [Event.run (dataSplitInv cfg)]
      else [])
  ++ (if active.contains "train_random_forest" then
        [Event.writeFile (rfConfigPath env) (jsonOfDict cfg.modeling.random_forest),
         Event.copytree (pjoin (pjoin env.orig_cwd "src") "train_random_forest")
           (pjoin env.tmp_dir "train_random_forest"),
         Event.setenv "MLFLOW_ENABLE_GIT_TRACKING" "false",
         Event.run (trainInv env cfg)]
      else [])
  ++ (if active.contains "test_regression_model" then
        [Event.copytree (pjoin (pjoin env.orig_cwd "src") "test_regression_model")
           (pjoin env.tmp_dir "test_regression_model"),
         Event.setenv "MLFLOW_ENABLE_GIT_TRACKING" "false",
         Event.run (testInv env)]
      else [])

/-- The `mlflow.run` invocations of a trace, in order. -/
def runsOf (es : List Event) : List Invocation :=
  es.filterMap (fun e =>
    match e with
    | Event.run inv => some inv
    | _ => none)

/-- Step name to the invocation its branch performs. -/
def stepInvocation (env : RunEnv) (cfg : Config) (step : String) : Invocation :=
  if step = "download" then downloadInv cfg
  else if step = "basic_cleaning" then basicCleaningInv env cfg
  else if step = "data_check" then dataCheckInv env cfg
  else if step = "data_split" then dataSplitInv cfg
  else if step = "train_random_forest" then trainInv env cfg
  else testInv env

/-- Central structure lemma: the invocations performed by `go` are exactly
the branches of the fixed step list whose name is in the active step set,
in source order. -/
lemma runsOf_goEvents (env : RunEnv) (cfg : Config) :
    runsOf (goEvents env cfg) =
      (_steps.filter (fun s => (activeSteps cfg.main.steps).contains s)).map
        (stepInvocation env cfg) := by
  simp only [goEvents, runsOf, _steps, List.filterMap_append]
  by_cases h1 : "download" ∈ activeSteps cfg.main.steps <;>
  by_cases h2 : "basic_cleaning" ∈ activeSteps cfg.main.steps <;>
  by_cases h3 : "data_check" ∈ activeSteps cfg.main.steps <;>
  by_cases h4 : "data_split" ∈ activeSteps cfg.main.steps <;>
  by_cases h5 : "train_random_forest" ∈ activeSteps cfg.main.steps <;>
  by_cases h6 : "test_regression_model" ∈ activeSteps cfg.main.steps <;>
  simp [h1, h2, h3, h4, h5, h6, stepInvocation, List.filter, List.contains,
    List.elem_eq_mem]

lemma searchChildren_isfile (fs : FS) (root : List String) :
    ∀ (names : List String) (p : List String),
      searchChildren fs root names = some p →
      isfile fs (p ++ ["MLmodel"]) = true := by
  intro names
  induction names with
  | nil => intro p h; simp [searchChildren] at h
  | cons name rest ih =>
    intro p h
    by_cases hf : isfile fs (root ++ [name, "MLmodel"])
    · simp only [searchChildren, if_pos hf, Option.some.injEq] at h
      subst h
      simpa [List.append_assoc] using hf
    · simp only [searchChildren, if_neg hf] at h
      exact ih p h

lemma searchChildren_eq_none (fs : FS) (root : List String) (names : List String) :
    searchChildren fs root names = none ↔
      ∀ name ∈ names, isfile fs (root ++ [name, "MLmodel"]) = false := by
  induction names with
  | nil => simp [searchChildren]
  | cons name rest ih =>
    by_cases hf : isfile fs (root ++ [name, "MLmodel"])
    · simp [searchChildren, hf]
    · simp [searchChildren, hf, ih, Bool.eq_false_iff.mpr hf]

end MLPipeline

namespace MLPipeline

/-- C1: `_resolve_mlflow_model_dir` is the three-branch fallback search
described by the spec: `root` itself when `root/MLmodel` is a file, else the
subdirectory `random_forest_dir` when it contains `MLmodel`, else the first
child entry of `root` in directory-listing order that contains `MLmodel`. -/
theorem resolve_dir_three_branch (fs : FS) (root : List String) :
    resolve_mlflow_model_dir fs root = resolveSpec fs root := by
  simp only [resolve_mlflow_model_dir, resolveSpec, firstChildWithMLmodel,
    searchChildren_eq_find fs root]

/-- C8: Postcondition of `_resolve_mlflow_model_dir`: a normal return
yields a path containing a file named `MLmodel`, and `FileNotFoundError` is
raised exactly when neither `root`, nor `root/random_forest_dir`, nor any
immediate child of `root` contains such a file. -/
theorem resolve_dir_postcondition (fs : FS) (root : List String) :
    (∀ p, resolve_mlflow_model_dir fs root = Except.ok p →
      isfile fs (p ++ ["MLmodel"]) = true) ∧
    (resolve_mlflow_model_dir fs root = Except.error "FileNotFoundError" ↔
      isfile fs (root ++ ["MLmodel"]) = false ∧
      isfile fs (root ++ ["random_forest_dir", "MLmodel"]) = false ∧
      ∀ name ∈ fs.listdir root,
        isfile fs (root ++ [name, "MLmodel"]) = false) := by
  constructor
  · intro p hp
    by_cases h1 : isfile fs (root ++ ["MLmodel"])
    · simp only [resolve_mlflow_model_dir, if_pos h1, Except.ok.injEq] at hp
      subst hp; exact h1
    · by_cases h2 : isfile fs (root ++ ["random_forest_dir", "MLmodel"])
      · simp only [resolve_mlflow_model_dir, if_neg h1, if_pos h2,
          Except.ok.injEq] at hp
        subst hp
        simpa [List.append_assoc] using h2
      · simp only [resolve_mlflow_model_dir, if_neg h1, if_neg h2] at hp
        cases hs : searchChildren fs root (fs.listdir root) with
        | none => rw [hs] at hp; exact absurd hp (by simp)
        | some q =>
          rw [hs] at hp
          simp only [Except.ok.injEq] at hp
          subst hp
          exact searchChildren_isfile fs root (fs.listdir root) q hs
  · constructor
    · intro he
      by_cases h1 : isfile fs (root ++ ["MLmodel"])
      · simp [resolve_mlflow_model_dir, h1] at he
      · by_cases h2 : isfile fs (root ++ ["random_forest_dir", "MLmodel"])
        · simp [resolve_mlflow_model_dir, h1, h2] at he
        · refine ⟨Bool.eq_false_iff.mpr h1, Bool.eq_false_iff.mpr h2, ?_⟩
          rw [← searchChildren_eq_none fs root (fs.listdir root)]
          simp only [resolve_mlflow_model_dir, if_neg h1, if_neg h2] at he
          cases hs : searchChildren fs root (fs.listdir root) with
          | none => rfl
          | some q => rw [hs] at he; exact absurd he (by simp)
    · rintro ⟨h1, h2, h3⟩
      have hs : searchChildren fs root (fs.listdir root) = none :=
        (searchChildren_eq_none fs root (fs.listdir root)).mpr h3
      simp [resolve_mlflow_model_dir, h1, h2, hs]

/-- Witness for C8 at a concrete filesystem where the first branch
succeeds. -/
theorem resolve_dir_postcondition_witness :
    resolve_mlflow_model_dir ⟨[["m", "MLmodel"]], fun _ => []⟩ ["m"] =
      Except.ok ["m"] ∧
    isfile ⟨[["m", "MLmodel"]], fun _ => []⟩ (["m"] ++ ["MLmodel"]) = true :=
  ⟨rfl,
   (resolve_dir_postcondition ⟨[["m", "MLmodel"]], fun _ => []⟩ ["m"]).1 ["m"] rfl⟩

/-- C2: Step selection: a `main.steps` string different from `"all"` is
split on commas, with no trimming or validation; the string `"all"` selects
exactly the fixed six-element step list. -/
theorem step_selection_override (s : String) :
    (s ≠ "all" → activeSteps s = pySplit s ',') ∧ activeSteps "all" = _steps := by
  constructor
  · intro h; simp [activeSteps, h]
  · simp [activeSteps]

/-- Witness for C2 at the override string `"basic_cleaning,data_check"`. -/
theorem step_selection_override_witness :
    activeSteps "basic_cleaning,data_check" = ["basic_cleaning", "data_check"] := by
  rw [(step_selection_override "basic_cleaning,data_check").1 (by decide)]
  decide

/-- C7: Step execution follows the fixed pipeline order: the performed
invocations are exactly the branches of `_steps` whose name is active, in
the order of `_steps` (a sublist of the fixed order, with no step twice). -/
theorem pipeline_fixed_order (env : RunEnv) (cfg : Config) :
    runsOf (goEvents env cfg) =
      (_steps.filter (fun s => (activeSteps cfg.main.steps).contains s)).map
        (stepInvocation env cfg) ∧
    (_steps.filter (fun s => (activeSteps cfg.main.steps).contains s)).Sublist
      _steps ∧
    (_steps.filter (fun s => (activeSteps cfg.main.steps).contains s)).Nodup := by
  refine ⟨runsOf_goEvents env cfg, List.filter_sublist _, ?_⟩
  exact List.Nodup.filter _ (by decide)

/-- C3: A step is invoked iff its name is in the active step set, with
its fixed parameter dictionary; under the selection
`"basic_cleaning,data_check"`, exactly those two sub-projects run. -/
theorem selected_steps_invoked (env : RunEnv) (cfg cfg2 : Config)
    (h : cfg.main.steps = "basic_cleaning,data_check") :
    runsOf (goEvents env cfg2) =
      (_steps.filter (fun s => (activeSteps cfg2.main.steps).contains s)).map
        (stepInvocation env cfg2) ∧
    runsOf (goEvents env cfg) =
      [basicCleaningInv env cfg, dataCheckInv env cfg] ∧
    (basicCleaningInv env cfg).parameters =
      [("input_artifact", "sample.csv:latest"),
       ("output_artifact", "clean_sample.csv"),
       ("output_type", "clean_sample"),
       ("output_description", "Cleaned sample (price filter, parsed dates, geo bounds)"),
       ("min_price", cfg.etl.min_price),
       ("max_price", cfg.etl.max_price)] ∧
    (dataCheckInv env cfg).parameters =
      [("csv", "clean_sample.csv:latest"),
       ("ref", "clean_sample.csv:reference"),
       ("kl_threshold", cfg.data_check.kl_threshold),
       ("min_price", cfg.etl.min_price),
       ("max_price", cfg.etl.max_price)] := by
  refine ⟨runsOf_goEvents env cfg2, ?_, rfl, rfl⟩
  rw [runsOf_goEvents env cfg, h]
  have hf : _steps.filter
      (fun s => (activeSteps "basic_cleaning,data_check").contains s) =
      ["basic_cleaning", "data_check"] := by decide
  rw [hf]
  rfl

/-- C9: An empty `main.steps` splits to the single empty token, which
matches no step, so nothing is invoked; tokens that are not exactly one of
the six step names (e.g. carrying surrounding whitespace) are silently
ignored. -/
theorem unknown_tokens_ignored (env : RunEnv) (cfg1 cfg2 : Config)
    (h1 : cfg1.main.steps = "")
    (h2 : cfg2.main.steps = " download, basic_cleaning") :
    activeSteps cfg1.main.steps = [""] ∧
    runsOf (goEvents env cfg1) = [] ∧
    runsOf (goEvents env cfg2) = [] := by
  refine ⟨by rw [h1]; decide, ?_, ?_⟩
  · rw [runsOf_goEvents env cfg1, h1]
    have hf : _steps.filter (fun s => (activeSteps "").contains s) = [] := by
      decide
    rw [hf]
    rfl
  · rw [runsOf_goEvents env cfg2, h2]
    have hf : _steps.filter
        (fun s => (activeSteps " download, basic_cleaning").contains s) = [] := by
      decide
    rw [hf]
    rfl

/-- A concrete execution context, used to instantiate theorems. -/
def envW : RunEnv := ⟨"/home/user/proj", "/home/user/proj/outputs", "/tmp/tmpd"⟩

/-- A concrete configuration with a chosen `main.steps` string, used to
instantiate theorems. -/
def sampleCfg (steps : String) : Config :=
  ⟨⟨"nyc_airbnb", "development", steps, "https://github.com/udacity/components"⟩,
   ⟨"sample1.csv", "10", "350"⟩,
   ⟨"0.2"⟩,
   ⟨"0.2", "42", "neighbourhood_group", "0.2", "5", [("n_estimators", "100")]⟩⟩

/-- Witness for C3: under the selection `"basic_cleaning,data_check"`,
exactly the cleaning and the check sub-projects are invoked, in this order. -/
theorem selected_steps_invoked_witness :
    runsOf (goEvents envW (sampleCfg "basic_cleaning,data_check")) =
      [basicCleaningInv envW (sampleCfg "basic_cleaning,data_check"),
       dataCheckInv envW (sampleCfg "basic_cleaning,data_check")] :=
  (selected_steps_invoked envW (sampleCfg "basic_cleaning,data_check")
    (sampleCfg "basic_cleaning,data_check") rfl).2.1

/-- Witness for C9 at the empty selection and at a selection whose
tokens carry surrounding whitespace. -/
theorem unknown_tokens_ignored_witness :
    runsOf (goEvents envW (sampleCfg "")) = [] ∧
    runsOf (goEvents envW (sampleCfg " download, basic_cleaning")) = [] :=
  ⟨(unknown_tokens_ignored envW (sampleCfg "")
      (sampleCfg " download, basic_cleaning") rfl rfl).2.1,
   (unknown_tokens_ignored envW (sampleCfg "")
      (sampleCfg " download, basic_cleaning") rfl rfl).2.2⟩

/-- Sequential execution of the trace against an oracle saying which
`mlflow.run` invocations raise: events run in order; a raising invocation is
the last event executed, and—`go` installing no handler—the exception is
returned to the caller as the second component. -/
def execEvents (fails : Invocation → Bool) : List Event → List Event × Option Invocation
  | [] => ([], none)
  | Event.run inv :: rest =>
    if fails inv then ([Event.run inv], some inv)
    else
      let r := execEvents fails rest
      (Event.run inv :: r.1, r.2)
  | e :: rest =>
    let r := execEvents fails rest
    (e :: r.1, r.2)

lemma execEvents_some (fails : Invocation → Bool) :
    ∀ (es : List Event) (i : Invocation),
      (execEvents fails es).2 = some i →
      fails i = true ∧
      ∃ pre post, es = pre ++ Event.run i :: post ∧
        (execEvents fails es).1 = pre ++ [Event.run i] ∧
        ∀ j ∈ runsOf pre, fails j = false := by
  intro es
  induction es with
  | nil => intro i h; simp [execEvents] at h
  | cons e rest ih =>
    intro i h
    cases e with
    | run inv =>
      by_cases hf : fails inv
      · simp only [execEvents, if_pos hf] at h
        simp only [Option.some.injEq] at h
        subst h
        exact ⟨hf, [], rest, rfl, by simp [execEvents, hf], by simp [runsOf]⟩
      · simp only [execEvents, if_neg hf] at h
        obtain ⟨hfi, pre, post, hsplit, htr, hpre⟩ := ih i h
        refine ⟨hfi, Event.run inv :: pre, post, by simp [hsplit], ?_, ?_⟩
        · simp [execEvents, hf, htr]
        · intro j hj
          simp only [runsOf, List.filterMap_cons] at hj
          simp only [List.mem_cons] at hj
          rcases hj with hj | hj
          · subst hj; exact Bool.eq_false_iff.mpr hf
          · exact hpre j hj
    | setenv n v =>
      simp only [execEvents] at h
      obtain ⟨hfi, pre, post, hsplit, htr, hpre⟩ := ih i h
      refine ⟨hfi, Event.setenv n v :: pre, post, by simp [hsplit], ?_, ?_⟩
      · simp [execEvents, htr]
      · intro j hj
        simp only [runsOf, List.filterMap_cons] at hj
        exact hpre j hj
    | writeFile p c =>
      simp only [execEvents] at h
      obtain ⟨hfi, pre, post, hsplit, htr, hpre⟩ := ih i h
      refine ⟨hfi, Event.writeFile p c :: pre, post, by simp [hsplit], ?_, ?_⟩
      · simp [execEvents, htr]
      · intro j hj
        simp only [runsOf, List.filterMap_cons] at hj
        exact hpre j hj
    | copytree s d =>
      simp only [execEvents] at h
      obtain ⟨hfi, pre, post, hsplit, htr, hpre⟩ := ih i h
      refine ⟨hfi, Event.copytree s d :: pre, post, by simp [hsplit], ?_, ?_⟩
      · simp [execEvents, htr]
      · intro j hj
        simp only [runsOf, List.filterMap_cons] at hj
        exact hpre j hj

/-- C4: A raising invocation terminates the whole pipeline: the failing
step's invocation is the last event executed, every earlier invocation had
succeeded, no later step in the trace is invoked, and the exception escapes
`go` (second component of `execEvents`). -/
theorem step_failure_terminates (env : RunEnv) (cfg : Config)
    (fails : Invocation → Bool) (i : Invocation)
    (h : (execEvents fails (goEvents env cfg)).2 = some i) :
    fails i = true ∧
    ∃ pre post, goEvents env cfg = pre ++ Event.run i :: post ∧
      (execEvents fails (goEvents env cfg)).1 = pre ++ [Event.run i] ∧
      ∀ j ∈ runsOf pre, fails j = false :=
  execEvents_some fails (goEvents env cfg) i h

/-- Failure oracle making every invocation raise. -/
def fails_w : Invocation → Bool := fun _ => true

/-- Witness for C4: with every invocation failing and all steps active,
the download invocation raises and is the last one executed. -/
theorem step_failure_terminates_witness :
    fails_w (downloadInv (sampleCfg "all")) = true ∧
    ∃ pre post,
      goEvents envW (sampleCfg "all") =
        pre ++ Event.run (downloadInv (sampleCfg "all")) :: post ∧
      (execEvents fails_w (goEvents envW (sampleCfg "all"))).1 =
        pre ++ [Event.run (downloadInv (sampleCfg "all"))] ∧
      ∀ j ∈ runsOf pre, fails_w j = false :=
  step_failure_terminates envW (sampleCfg "all") fails_w
    (downloadInv (sampleCfg "all")) rfl

/-- Claim-side predicate for C5 as stated: `true` iff no
environment-variable assignment occurs after the first invocation in the
trace. -/
def setenvOnlyBeforeRuns : List Event → Bool
  | [] => true
  | Event.run _ :: rest =>
    rest.all (fun e =>
      match e with
      | Event.setenv _ _ => false
      | _ => true)
  | _ :: rest => setenvOnlyBeforeRuns rest

/-- Counterexample to C5 as stated: with all steps active, the
`train_random_forest` branch assigns `MLFLOW_ENABLE_GIT_TRACKING` after the
`download`, `basic_cleaning`, `data_check` and `data_split` invocations, so
not every environment-variable assignment precedes the first step. -/
theorem setenv_after_first_run_cex :
    setenvOnlyBeforeRuns (goEvents envW (sampleCfg "all")) = false := by decide

/-- The events of all six branches taken unconditionally, in source order. -/
def allEvents (env : RunEnv) (cfg : Config) : List Event :=
  [Event.setenv "WANDB_PROJECT" cfg.main.project_name,
   Event.setenv "WANDB_RUN_GROUP" cfg.main.experiment_name,
   Event.run (downloadInv cfg),
   Event.run (basicCleaningInv env cfg),
   Event.run (dataCheckInv env cfg),
   Event.run (dataSplitInv cfg),
   Event.writeFile (rfConfigPath env) (jsonOfDict cfg.modeling.random_forest),
   Event.copytree (pjoin (pjoin env.orig_cwd "src") "train_random_forest")
     (pjoin env.tmp_dir "train_random_forest"),
   Event.setenv "MLFLOW_ENABLE_GIT_TRACKING" "false",
   Event.run (trainInv env cfg),
   Event.copytree (pjoin (pjoin env.orig_cwd "src") "test_regression_model")
     (pjoin env.tmp_dir "test_regression_model"),
   Event.setenv "MLFLOW_ENABLE_GIT_TRACKING" "false",
   Event.run (testInv env)]

lemma mem_of_mem_ite_nil {α : Type} {e : α} {c : Prop} [Decidable c]
    {l : List α} (h : e ∈ if c then l else []) : e ∈ l := by
  by_cases hc : c
  · simpa [hc] using h
  · simp [hc] at h

lemma goEvents_subset_allEvents (env : RunEnv) (cfg : Config) :
    goEvents env cfg ⊆ allEvents env cfg := by
  intro e he
  simp only [goEvents, List.mem_append] at he
  simp only [allEvents, List.mem_cons, List.not_mem_nil, or_false]
  rcases he with ((((((h | h) | h) | h) | h) | h) | h)
  · simp only [List.mem_cons, List.not_mem_nil, or_false] at h
    tauto
  · have h2 := mem_of_mem_ite_nil h
    simp only [List.mem_cons, List.not_mem_nil, or_false] at h2
    tauto
  · have h2 := mem_of_mem_ite_nil h
    simp only [List.mem_cons, List.not_mem_nil, or_false] at h2
    tauto
  · have h2 := mem_of_mem_ite_nil h
    simp only [List.mem_cons, List.not_mem_nil, or_false] at h2
    tauto
  · have h2 := mem_of_mem_ite_nil h
    simp only [List.mem_cons, List.not_mem_nil, or_false] at h2
    tauto
  · have h2 := mem_of_mem_ite_nil h
    simp only [List.mem_cons, List.not_mem_nil, or_false] at h2
    tauto
  · have h2 := mem_of_mem_ite_nil h
    simp only [List.mem_cons, List.not_mem_nil, or_false] at h2
    tauto

/-- C5 (amended): The `WANDB_PROJECT` and `WANDB_RUN_GROUP` assignments
are the first two events, before any step; every other environment-variable
assignment in the trace is `MLFLOW_ENABLE_GIT_TRACKING := "false"`, made
inside the `train_random_forest` / `test_regression_model` branches (hence
possibly after earlier steps have run). -/
theorem env_assignments_amended (env : RunEnv) (cfg : Config) :
    (goEvents env cfg).take 2 =
      [Event.setenv "WANDB_PROJECT" cfg.main.project_name,
       Event.setenv "WANDB_RUN_GROUP" cfg.main.experiment_name] ∧
    ∀ n v, Event.setenv n v ∈ goEvents env cfg →
      (n, v) ∈ [("WANDB_PROJECT", cfg.main.project_name),
                ("WANDB_RUN_GROUP", cfg.main.experiment_name),
                ("MLFLOW_ENABLE_GIT_TRACKING", "false")] := by
  constructor
  · rfl
  · intro n v hm
    have hall := goEvents_subset_allEvents env cfg hm
    simp only [allEvents, List.mem_cons, List.not_mem_nil, or_false] at hall
    simp only [List.mem_cons, List.not_mem_nil, or_false, Prod.mk.injEq]
    rcases hall with h | h | h | h | h | h | h | h | h | h | h | h | h <;>
      simp at h <;> tauto

/-- Witness for C5 (amended): the start-up `WANDB_PROJECT` assignment is
classified among the three permitted assignments. -/
theorem env_assignments_amended_witness :
    ("WANDB_PROJECT", (sampleCfg "all").main.project_name) ∈
      [("WANDB_PROJECT", (sampleCfg "all").main.project_name),
       ("WANDB_RUN_GROUP", (sampleCfg "all").main.experiment_name),
       ("MLFLOW_ENABLE_GIT_TRACKING", "false")] :=
  (env_assignments_amended envW (sampleCfg "all")).2
    "WANDB_PROJECT" (sampleCfg "all").main.project_name (by decide)

/-- C6: When `train_random_forest` is active, the hyperparameter
dictionary is serialized as JSON to `os.path.abspath("rf_config.json")`
before the training invocation, and that very path is handed to the
training step as its `rf_config` parameter. -/
theorem rf_config_json_handoff (env : RunEnv) (cfg : Config)
    (h : "train_random_forest" ∈ activeSteps cfg.main.steps) :
    (∃ pre mid post,
      goEvents env cfg =
        pre ++ Event.writeFile (rfConfigPath env)
            (jsonOfDict cfg.modeling.random_forest) ::
          (mid ++ Event.run (trainInv env cfg) :: post)) ∧
    ("rf_config", rfConfigPath env) ∈ (trainInv env cfg).parameters := by
  have hc : (activeSteps cfg.main.steps).contains "train_random_forest" = true := by
    simp [List.contains, List.elem_eq_mem, h]
  constructor
  · refine ⟨[Event.setenv "WANDB_PROJECT" cfg.main.project_name,
       Event.setenv "WANDB_RUN_GROUP" cfg.main.experiment_name]
      ++ (if (activeSteps cfg.main.steps).contains "download" then
            [Event.run (downloadInv cfg)]
          else [])
      ++ (if (activeSteps cfg.main.steps).contains "basic_cleaning" then
            [Event.run (basicCleaningInv env cfg)]
          else [])
      ++ (if (activeSteps cfg.main.steps).contains "data_check" then
            [Event.run (dataCheckInv env cfg)]
          else [])
      ++ (if (activeSteps cfg.main.steps).contains "data_split" then
            [Event.run (dataSplitInv cfg)]
          else []),
      [Event.copytree (pjoin (pjoin env.orig_cwd "src") "train_random_forest")
         (pjoin env.tmp_dir "train_random_forest"),
       Event.setenv "MLFLOW_ENABLE_GIT_TRACKING" "false"],
      (if (activeSteps cfg.main.steps).contains "test_regression_model" then
         [Event.copytree (pjoin (pjoin env.orig_cwd "src") "test_regression_model")
            (pjoin env.tmp_dir "test_regression_model"),
          Event.setenv "MLFLOW_ENABLE_GIT_TRACKING" "false",
          Event.run (testInv env)]
       else []), ?_⟩
    simp only [goEvents, hc, if_true]
    simp [List.append_assoc]
  · simp [trainInv]

/-- Witness for C6 with all steps active. -/
theorem rf_config_json_handoff_witness :
    (∃ pre mid post,
      goEvents envW (sampleCfg "all") =
        pre ++ Event.writeFile (rfConfigPath envW)
            (jsonOfDict (sampleCfg "all").modeling.random_forest) ::
          (mid ++ Event.run (trainInv envW (sampleCfg "all")) :: post)) ∧
    ("rf_config", rfConfigPath envW) ∈
      (trainInv envW (sampleCfg "all")).parameters :=
  rf_config_json_handoff envW (sampleCfg "all") (by decide)

/-!
## Embedding of the scoring portion of `test_regression_model/run.py`

The test dataframe is a list of `(column name, values)` columns; column
values are opaque (`α`).  `df[target].values` is the first column whose
name equals `target` (`KeyError` when there is none, modelled as `.error`),
`df.drop(columns=[target])` removes the target-named columns and leaves the
others unchanged, and on success the three metrics are logged to the
tracking platform.
-/

/-- The metric keys logged by `wandb.log` at the end of the evaluation. -/
def metricNames : List String := ["mae_test", "rmse_test", "r2_test"]

/-- Embedding of `y = df[args.target].values; X = df.drop(columns=[args.target])`
followed by the metric logging: on success returns the label vector, the
feature matrix and the logged metric keys; a missing target column raises
(`.error`) before anything is logged. -/
def evalStep {α : Type} (df : List (String × List α)) (target : String) :
    Except String (List α × List (String × List α) × List String) :=
  match df.find? (fun c => c.1 == target) with
  | none => Except.error "KeyError"
  | some c =>
    Except.ok (c.2, df.filter (fun d => !(d.1 == target)), metricNames)

/-- C10: The label vector is exactly the values of the target column,
the feature matrix is the dataframe with only the target column dropped
(all other columns unchanged, in order), and a dataframe without the target
column fails with an exception before any metric is logged. -/
theorem eval_step_extraction {α : Type} (df1 df2 : List (String × List α))
    (target : String) (c : String × List α)
    (h1 : df1.find? (fun d => d.1 == target) = some c)
    (h2 : ∀ d ∈ df2, d.1 ≠ target) :
    evalStep df1 target =
      Except.ok (c.2, df1.filter (fun d => !(d.1 == target)), metricNames) ∧
    c.1 = target ∧ c ∈ df1 ∧
    (df1.filter (fun d => !(d.1 == target))).Sublist df1 ∧
    (∀ d ∈ df1, (d ∈ df1.filter (fun d0 => !(d0.1 == target)) ↔ d.1 ≠ target)) ∧
    evalStep df2 target = Except.error "KeyError" := by
  refine ⟨by simp [evalStep, h1], ?_, List.mem_of_find?_eq_some h1,
    List.filter_sublist _, ?_, ?_⟩
  · simpa using List.find?_some h1
  · intro d hd
    simp [List.mem_filter, hd]
  · have hn : df2.find? (fun d => d.1 == target) = none := by
      rw [List.find?_eq_none]
      intro d hd
      simpa using h2 d hd
    simp [evalStep, hn]

/-- Witness for C10 on a two-column dataframe with target `"price"`
and on a dataframe without the target column. -/
theorem eval_step_extraction_witness :
    evalStep [("price", [100]), ("beds", [2])] "price" =
      Except.ok ([100], [("beds", [2])], metricNames) ∧
    evalStep [("beds", [2])] "price" = Except.error "KeyError" := by
  have h := @eval_step_extraction Nat [("price", [100]), ("beds", [2])]
    [("beds", [2])] "price" ("price", [100]) rfl (by decide)
  exact ⟨by rw [h.1]; rfl, h.2.2.2.2.2⟩

end MLPipeline
